import Mathlib

/-!
Verification of the yocache repository (a groupcache-style distributed
in-process cache written in Go) against its natural-language specification.

Bytes are modelled as `List Nat` (each element a byte value), strings as
Lean `String`, and `time.Time` / `time.Duration` as `Nat` (the zero value
of `time.Time` is `0`, meaning "no expiry").  Fallible Go functions
returning `(T, error)` are modelled as `Except String T`.
-/

namespace Yocache

/-- `ByteView` from the source: an immutable view over a byte slice.
`ByteView{b: body}` wraps bytes; `ByteSlice()` returns a content-equal
copy, which in this value model is the list itself. -/
structure ByteView where
  b : List Nat
deriving Repr, DecidableEq

/-- `view.ByteSlice()`: returns a (content-equal) copy of the bytes. -/
def ByteView.ByteSlice (v : ByteView) : List Nat := v.b

/-! ## Codec (src/unnamed/part_000)

`RawCodec.Encode` returns the view's bytes; `RawCodec.Decode` wraps the
bytes in a `ByteView`.  Neither can fail. -/

/-- `RawCodec.Encode`: `return view.ByteSlice(), nil`. -/
def RawCodec.Encode (view : ByteView) : Except String (List Nat) :=
  .ok view.ByteSlice

/-- `RawCodec.Decode`: `return ByteView{b: body}, nil`. -/
def RawCodec.Decode (body : List Nat) : Except String ByteView :=
  .ok ⟨body⟩

/-! ## Gzip model

`GzipCodec` drives Go's `compress/gzip`.  A full DEFLATE bit-stream model
is not needed to settle the round-trip claim; we model a gzip byte stream
at block granularity, which is the granularity at which `gzip.Writer`
emits output and `gzip.Reader` consumes it:

* `GzToken.header`  — the 10-byte gzip header;
* `GzToken.block final data` — a deflate block carrying `data`; `final`
  is the BFINAL bit.  `gzip.Writer.Flush` performs a flate sync flush:
  it pushes all data written so far as non-final blocks followed by an
  empty non-final stored block; `gzip.Writer.Close` emits a final block
  and then the trailer;
* `GzToken.trailer crc isize` — the 8-byte trailer (CRC-32 of the
  uncompressed data and its length mod 2^32), written only by `Close`.

`gzip.Reader` (driven to EOF by `bytes.Buffer.ReadFrom`) parses the
header, then reads blocks until a block with the final bit, then reads
and verifies the trailer; if the input ends first it fails with
`io.ErrUnexpectedEOF` ("unexpected EOF"). -/

inductive GzToken where
  | header : GzToken
  | block : Bool → List Nat → GzToken
  | trailer : Nat → Nat → GzToken
deriving Repr, DecidableEq

/-- What `writer.Write(data)` followed by `writer.Flush()` leaves in the
output buffer `b`: the lazily-written header, the data as a non-final
block, and the empty non-final stored block of the sync flush.  Neither
call can fail when the underlying writer is a `bytes.Buffer`. -/
def gzipFlushOutput (data : List Nat) : List GzToken :=
  [.header, .block false data, .block false []]

/-- What the deferred `writer.Close()` appends to `b` after the return
value has been captured: a final (BFINAL) block and the trailer. -/
def gzipCloseSuffix (crc32 : List Nat → Nat) (data : List Nat) : List GzToken :=
  [.block true [], .trailer (crc32 data) (data.length % 2 ^ 32)]

/-- `GzipCodec.Encode` from the source:

```go
var b bytes.Buffer
writer := gzip.NewWriter(&b)
defer writer.Close()
if _, err := writer.Write(view.ByteSlice()); err != nil { return nil, err }
if err := writer.Flush(); err != nil { return nil, err }
return b.Bytes(), nil
```

`return b.Bytes(), nil` evaluates `b.Bytes()` (capturing a slice of the
buffer's current contents) before the deferred `writer.Close()` runs, so
the tokens `Close` appends (`gzipCloseSuffix`) are not part of the
returned bytes. -/
def GzipCodec.Encode (view : ByteView) : Except String (List GzToken) :=
  .ok (gzipFlushOutput view.ByteSlice)

/-- `gzip.Reader` block loop: accumulate block payloads until a block
with the final bit is seen, then check the trailer; running out of input
first is `io.ErrUnexpectedEOF`. -/
def gzipReadBlocks (crc32 : List Nat → Nat) : List GzToken → List Nat →
    Except String (List Nat)
  | [], _ => .error "unexpected EOF"
  | .block false d :: rest, acc => gzipReadBlocks crc32 rest (acc ++ d)
  | .block true d :: rest, acc =>
    match rest with
    | .trailer crc isize :: _ =>
      if crc = crc32 (acc ++ d) ∧ isize = (acc ++ d).length % 2 ^ 32 then
        .ok (acc ++ d)
      else .error "gzip: invalid checksum"
    | _ => .error "unexpected EOF"
  | _, _ => .error "gzip: invalid input"

/-- `GzipCodec.Decode` from the source: `gzip.NewReader` parses the
header (failing on a malformed one), then `res.ReadFrom(reader)` drives
the reader to EOF, surfacing any mid-stream error. -/
def GzipCodec.Decode (crc32 : List Nat → Nat) (body : List GzToken) :
    Except String ByteView :=
  match body with
  | .header :: rest =>
    match gzipReadBlocks crc32 rest [] with
    | .ok data => .ok ⟨data⟩
    | .error e => .error e
  | _ => .error "gzip: invalid header"

/-! ## LRU (package `yocache/lru`)

Modelled from the spec: the `yocache/lru` package itself is not among the
provided sources; §4.1 of the spec describes it.  An entry is
`(key, value, expire)` with `expire = 0` meaning "not set"; the recency
sequence runs least- to most-recently-used (head = LRU end).  Time is a
`Nat` passed explicitly where the source calls `time.Now()`. -/

/-- One LRU entry: key, value and optional expire timestamp
(`0` = never). -/
structure Entry where
  key : String
  value : ByteView
  expire : Nat
deriving Repr, DecidableEq

/-- Size contribution of an entry: `len(key) + value.Len()`. -/
def Entry.size (e : Entry) : Nat := e.key.length + e.value.b.length

/-- Modelled from the spec: the `lru.Cache` structure — a byte budget
(`0` disables capacity eviction) and the recency-ordered entries,
least-recently-used first. -/
structure Lru where
  maxBytes : Nat
  entries : List Entry
deriving Repr, DecidableEq

/-- Modelled from the spec: `lru.New(maxBytes, onEvict)` returns an
empty cache. -/
def Lru.New (maxBytes : Nat) : Lru := ⟨maxBytes, []⟩

/-- Total byte usage of the entries. -/
def lruBytes (es : List Entry) : Nat := (es.map Entry.size).sum

/-- Eviction loop: while the budget is positive and exceeded, drop the
least-recently-used entry (the head). -/
def evictLoop (maxBytes : Nat) : List Entry → List Entry
  | [] => []
  | e :: rest =>
    if 0 < maxBytes ∧ maxBytes < lruBytes (e :: rest) then evictLoop maxBytes rest
    else e :: rest

/-- Modelled from the spec: `lru.Add(key, value, expire)` — update an
existing entry (value, expire, size) and promote it to the
most-recently-used end, or insert a fresh entry there; then evict from
the least-recently-used end while over a positive budget. -/
def Lru.Add (l : Lru) (key : String) (value : ByteView) (expire : Nat) : Lru :=
  { l with
    entries :=
      evictLoop l.maxBytes
        (l.entries.filter (fun e => e.key ≠ key) ++ [⟨key, value, expire⟩]) }

/-- Modelled from the spec: `lru.Get(key)` at time `now` — miss when the
key is absent; when the entry's expire is set (nonzero) and `≤ now`,
remove it and miss; otherwise promote it and hit.  Returns the result
and the updated cache. -/
def Lru.Get (l : Lru) (key : String) (now : Nat) : Option ByteView × Lru :=
  match l.entries.find? (fun e => e.key = key) with
  | none => (none, l)
  | some e =>
    if e.expire ≠ 0 ∧ e.expire ≤ now then
      (none, { l with entries := l.entries.filter (fun e => e.key ≠ key) })
    else
      (some e.value,
        { l with entries := l.entries.filter (fun e => e.key ≠ key) ++ [e] })

/-! ## cache (src/unnamed/part_001, `cache.go`)

The mutex serializes `add`/`get`; here each is a pure state transition.
`c.lru` is a pointer that starts nil (`Option.none`). -/

/-- The `cache` struct: lazily-constructed LRU, byte budget and TTL. -/
structure Cache where
  lru : Option Lru
  cacheBytes : Nat
  ttl : Nat
deriving Repr, DecidableEq

/-- `cache.add`: construct the LRU on first use, compute
`expire = now + ttl` when `ttl != 0` (else the zero time), and add. -/
def Cache.add (c : Cache) (key : String) (value : ByteView) (now : Nat) : Cache :=
  let l := match c.lru with
    | none => Lru.New c.cacheBytes
    | some l => l
  let expire := if c.ttl ≠ 0 then now + c.ttl else 0
  { c with lru := some (l.Add key value expire) }

/-- `cache.get`: with a nil LRU return the zero `ByteView` and `false`
without constructing anything; otherwise consult the LRU. -/
def Cache.get (c : Cache) (key : String) (now : Nat) : (ByteView × Bool) × Cache :=
  match c.lru with
  | none => ((⟨[]⟩, false), c)
  | some l =>
    match l.Get key now with
    | (some v, l') => ((v, true), { c with lru := some l' })
    | (none, l') => ((⟨[]⟩, false), { c with lru := some l' })

/-- The expire timestamp stored for `key`, when present. -/
def Cache.storedExpire (c : Cache) (key : String) : Option Nat :=
  match c.lru with
  | none => none
  | some l => (l.entries.find? (fun e => e.key = key)).map Entry.expire

/-! ## Byte-level helpers (Go stdlib behaviour)

UTF-8 encoding of a code point, CRC-32/IEEE, and `url.QueryEscape`,
modelled after the Go standard library since the source calls into it. -/

/-- `strings.HasPrefix(s, pre)`. -/
def goHasPrefix (s pre : String) : Bool := pre.data.isPrefixOf s.data

/-- `s[n:]` (Go slicing drops the first `n` units of `s`). -/
def goDrop (s : String) (n : Nat) : String := ⟨s.data.drop n⟩

/-- `len(s)`. -/
def goLength (s : String) : Nat := s.data.length

/-- UTF-8 encoding of a single code point (Go strings are UTF-8 byte
sequences; `[]byte(s)` yields these bytes). -/
def utf8Bytes (c : Char) : List Nat :=
  let n := c.toNat
  if n < 0x80 then [n]
  else if n < 0x800 then [0xC0 + n / 0x40, 0x80 + n % 0x40]
  else if n < 0x10000 then
    [0xE0 + n / 0x1000, 0x80 + n / 0x40 % 0x40, 0x80 + n % 0x40]
  else
    [0xF0 + n / 0x40000, 0x80 + n / 0x1000 % 0x40, 0x80 + n / 0x40 % 0x40,
      0x80 + n % 0x40]

/-- The UTF-8 bytes of a string. -/
def strUtf8 (s : String) : List Nat := (s.data.map utf8Bytes).flatten

/-- One bit-step of reflected CRC-32 with polynomial `0xEDB88320`. -/
def crc32Step (crc : Nat) : Nat :=
  if crc % 2 = 1 then (crc / 2) ^^^ 0xEDB88320 else crc / 2

/-- Fold one byte into a CRC-32 accumulator. -/
def crc32Byte (crc b : Nat) : Nat :=
  (List.range 8).foldl (fun c _ => crc32Step c) (crc ^^^ b % 256)

/-- `crc32.ChecksumIEEE` over a byte sequence. -/
def crc32ieee (bytes : List Nat) : Nat :=
  bytes.foldl crc32Byte 0xFFFFFFFF ^^^ 0xFFFFFFFF

/-- `crc32.ChecksumIEEE([]byte(key))`, the default ring hash. -/
def strCrc32 (s : String) : Nat := crc32ieee (strUtf8 s)

/-- Upper-case hexadecimal digit, `n < 16`. -/
def upperHexDigit (n : Nat) : Char :=
  if n < 10 then Char.ofNat (48 + n) else Char.ofNat (55 + n)

/-- Bytes left unescaped by `url.QueryEscape`: ASCII alphanumerics and
`-`, `_`, `.`, `~`. -/
def isUnreservedQueryByte (b : Nat) : Bool :=
  decide ((65 ≤ b ∧ b ≤ 90) ∨ (97 ≤ b ∧ b ≤ 122) ∨ (48 ≤ b ∧ b ≤ 57) ∨
    b = 45 ∨ b = 95 ∨ b = 46 ∨ b = 126)

/-- `url.QueryEscape` treatment of one byte: unreserved bytes pass
through, a space becomes `+`, anything else becomes `%XX`. -/
def escapeQueryByte (b : Nat) : List Char :=
  if isUnreservedQueryByte b then [Char.ofNat b]
  else if b = 32 then ['+']
  else ['%', upperHexDigit (b / 16), upperHexDigit (b % 16)]

/-- `url.QueryEscape`: percent-encode the UTF-8 bytes of `s` for use in
a URL query/path component. -/
def queryEscape (s : String) : String :=
  String.mk ((strUtf8 s).map escapeQueryByte).flatten

/-! ## Consistent hash (package `yocache/consistenthash`)

Modelled from the spec: the `yocache/consistenthash` package is not
among the provided sources; §4.3 of the spec describes it. -/

/-- Modelled from the spec: the ring — a replica multiplier, a hash
function, and the sorted hash points, each carrying its peer. -/
structure CHMap where
  replicas : Nat
  hashFn : String → Nat
  keys : List (Nat × String)

/-- Modelled from the spec: `consistenthash.New(replicas, fn)`; a nil
`fn` defaults to CRC-32/IEEE. -/
def CHMap.New (replicas : Nat) (fn : Option (String → Nat)) : CHMap :=
  ⟨replicas, fn.getD strCrc32, []⟩

/-- Stable insertion into a hash-sorted ring: an incoming point goes
after every existing point with hash ≤ its own. -/
def ringInsert (x : Nat × String) : List (Nat × String) → List (Nat × String)
  | [] => [x]
  | y :: ys => if y.1 ≤ x.1 then y :: ringInsert x ys else x :: y :: ys

/-- Modelled from the spec: `Add(peers...)` — for each peer `p` and
`i ∈ [0, replicas)` insert the point `(hash(ascii(i) ++ p), p)`; the
ring stays sorted by hash. -/
def CHMap.Add (m : CHMap) (peers : List String) : CHMap :=
  { m with
    keys :=
      ((peers.map (fun p =>
          (List.range m.replicas).map (fun i => (m.hashFn (toString i ++ p), p)))).flatten).foldl
        (fun acc pt => ringInsert pt acc) m.keys }

/-- Modelled from the spec: `Get(key)` — the empty ring yields `""`;
otherwise the peer of the smallest point with hash ≥ `hash(key)`,
wrapping to the first point when none is. -/
def CHMap.Get (m : CHMap) (key : String) : String :=
  match m.keys with
  | [] => ""
  | first :: rest =>
    match (first :: rest).find? (fun kv => m.hashFn key ≤ kv.1) with
    | some kv => kv.2
    | none => first.2

/-! ## HTTP pool and peer client (src/unnamed/part_001, `http.go`)

`http.ResponseWriter` effects are reified as a `ServeResult`; a request
is its URL path; `GetGroup` and `Group.Get` (whose source file is not
provided) are abstract function parameters; `http.Get` is an abstract
`fetch` function from URL to response. -/

/-- A codec as a pair of functions (the `Codec` interface). -/
structure CodecFns where
  Encode : ByteView → Except String (List Nat)
  Decode : List Nat → Except String ByteView

/-- The `RawCodec` packaged as interface value. -/
def rawCodecFns : CodecFns := ⟨RawCodec.Encode, RawCodec.Decode⟩

/-- `httpGetter`: a peer's base URL plus the decoder captured at `Set`
time. -/
structure HttpGetter where
  baseURL : String
  decoder : List Nat → Except String ByteView

/-- The URL `httpGetter.Get` requests:
`fmt.Sprintf("%v%v/%v", h.baseURL, url.QueryEscape(group), url.QueryEscape(key))`. -/
def HttpGetter.url (h : HttpGetter) (group key : String) : String :=
  h.baseURL ++ queryEscape group ++ "/" ++ queryEscape key

/-- An HTTP response as the client sees it: numeric status code, the
status line text (e.g. `"404 Not Found"`), and the (already read)
body. -/
structure HttpResponse where
  statusCode : Nat
  status : String
  body : List Nat

/-- `httpGetter.Get(group, key)`: issue `http.Get` on the built URL,
fail on transport error, fail with `"server returned: " + res.Status`
on any non-200 status, otherwise decode the body (prefixing decode
errors) and return the view's bytes. -/
def HttpGetter.Get (h : HttpGetter)
    (fetch : String → Except String HttpResponse) (group key : String) :
    Except String (List Nat) :=
  match fetch (h.url group key) with
  | .error e => .error e
  | .ok res =>
    if res.statusCode ≠ 200 then .error ("server returned: " ++ res.status)
    else
      match h.decoder res.body with
      | .error e => .error ("decoding response body: " ++ e)
      | .ok view => .ok view.ByteSlice

/-- `HTTPPool`: self identifier, resolved options, and the peer state
installed by `Set` (`peers` is a nil pointer until then). -/
structure HTTPPool where
  self : String
  basePath : String
  replicas : Nat
  hashFn : Option (String → Nat)
  codec : CodecFns
  peers : Option CHMap
  httpGetters : String → Option HttpGetter

/-- `HTTPPoolOptions` before defaulting; `none` stands for Go's nil. -/
structure HTTPPoolOptions where
  BasePath : String
  Replicas : Nat
  HashFn : Option (String → Nat)
  Codec : Option CodecFns

/-- `NewHTTPPool(self, opts)`: fill in defaults (`"/_yocache/"`, 50
replicas, `RawCodec`); `peers` and `httpGetters` start nil. -/
def NewHTTPPool (self : String) (opts : HTTPPoolOptions) : HTTPPool :=
  { self := self
    basePath := if opts.BasePath = "" then "/_yocache/" else opts.BasePath
    replicas := if opts.Replicas = 0 then 50 else opts.Replicas
    hashFn := opts.HashFn
    codec := opts.Codec.getD rawCodecFns
    peers := none
    httpGetters := fun _ => none }

/-- `HTTPPool.Set(peers...)`: rebuild the ring from scratch and the
getter map, each getter keyed by peer with base URL
`peer + p.opts.BasePath` and the pool codec's decoder. -/
def HTTPPool.Set (p : HTTPPool) (peersList : List String) : HTTPPool :=
  { p with
    peers := some ((CHMap.New p.replicas p.hashFn).Add peersList),
    httpGetters := fun s =>
      if peersList.contains s then some ⟨s ++ p.basePath, p.codec.Decode⟩
      else none }

/-- Outcome of `PickPeer`: a Go runtime panic (nil `p.peers`
dereference) or the returned `(PeerGetter, bool)` pair. -/
inductive PickResult where
  | panicked : PickResult
  | picked : Option HttpGetter → Bool → PickResult

/-- `HTTPPool.PickPeer(key)`: calling `p.peers.Get(key)` on the nil
ring panics; otherwise return the getter and `true` when the chosen
peer is neither `""` nor `p.self`, else `(nil, false)`. -/
def HTTPPool.PickPeer (p : HTTPPool) (key : String) : PickResult :=
  match p.peers with
  | none => .panicked
  | some ring =>
    let peer := ring.Get key
    if peer ≠ "" ∧ peer ≠ p.self then .picked (p.httpGetters peer) true
    else .picked none false

/-- Split a character sequence around its first `/`, when it has one. -/
def splitFirstSlash : List Char → Option (List Char × List Char)
  | [] => none
  | c :: cs =>
    if c = '/' then some ([], cs)
    else
      match splitFirstSlash cs with
      | none => none
      | some (l, r) => some (c :: l, r)

/-- `strings.SplitN(s, "/", 2)`: at most one split, around the first
`/`; without a `/` the result is the one-element list `[s]`. -/
def splitN2 (s : String) : List String :=
  match splitFirstSlash s.data with
  | none => [s]
  | some (l, r) => [⟨l⟩, ⟨r⟩]

/-- Bytes an error/success body is written as. -/
def strBytes (s : String) : List Nat := s.data.map Char.toNat

/-- What `ServeHTTP` does to the `ResponseWriter`: a panic, or a
response with status, `Content-Type` and body. -/
inductive ServeResult where
  | panicked : String → ServeResult
  | response : Nat → String → List Nat → ServeResult
deriving Repr, DecidableEq

/-- `Content-Type` set by `http.Error`. -/
def plainCT : String := "text/plain; charset=utf-8"

/-- `HTTPPool.ServeHTTP`: panic on a path outside `BasePath`; 400 when
the rest of the path does not split into exactly two segments; 404 when
`GetGroup` finds no group; 500 when `group.Get` or `Codec.Encode`
fails; otherwise 200 with `application/octet-stream` and the encoded
bytes.  (`http.Error` appends a newline to its message.)  `getGroup`
abstracts the registry lookup and `Group.Get`, whose source file is not
provided. -/
def HTTPPool.ServeHTTP (p : HTTPPool)
    (getGroup : String → Option (String → Except String ByteView))
    (path : String) : ServeResult :=
  if goHasPrefix path p.basePath then
    match splitN2 (goDrop path (goLength p.basePath)) with
    | [groupName, key] =>
      match getGroup groupName with
      | none =>
        .response 404 plainCT (strBytes ("no such group: " ++ groupName ++ "\n"))
      | some groupGet =>
        match groupGet key with
        | .error e => .response 500 plainCT (strBytes (e ++ "\n"))
        | .ok view =>
          match p.codec.Encode view with
          | .error e => .response 500 plainCT (strBytes (e ++ "\n"))
          | .ok body => .response 200 "application/octet-stream" body
    | _ => .response 400 plainCT (strBytes "bad request\n")
  else .panicked ("HTTPPool serving unexpected path: " ++ path)

/-- With a zero byte budget, the eviction loop removes nothing. -/
theorem evictLoop_zero (es : List Entry) : evictLoop 0 es = es := by
  cases es <;> simp [evictLoop]

/-- After removing every entry for `key` and appending `e` (whose key is
`key`), looking `key` up finds exactly `e`. -/
theorem find?_filter_append (es : List Entry) (key : String) (e : Entry)
    (he : e.key = key) :
    ((es.filter (fun x => x.key ≠ key)) ++ [e]).find? (fun x => x.key = key) =
      some e := by
  induction es with
  | nil => simp [List.find?, he]
  | cons a es ih =>
    by_cases h : a.key = key
    · simpa [List.filter_cons, h] using ih
    · simpa [List.filter_cons, h, List.find?_cons, ih] using ih

/-- With a zero byte budget, looking up `key` right after
`Add(key, value, expire)` finds the freshly stored entry. -/
theorem lru_find_after_add (l : Lru) (hm : l.maxBytes = 0) (key : String)
    (v : ByteView) (expire : Nat) :
    (l.Add key v expire).entries.find? (fun e => e.key = key) =
      some ⟨key, v, expire⟩ := by
  simp only [Lru.Add, hm, evictLoop_zero]
  exact find?_filter_append l.entries key ⟨key, v, expire⟩ rfl

end Yocache

open Yocache

/-- C1: the claim states `Codec.Decode(Codec.Encode(v))` succeeds and
returns `v` for both codecs.  It holds for `RawCodec` (first conjunct)
but fails for `GzipCodec` on every input, the empty view included
(second and third conjuncts): `Encode` captures `b.Bytes()` before the
deferred `writer.Close()` appends the final block and trailer, so the
returned stream is truncated and `Decode` fails with `unexpected EOF`,
whatever the checksum function. -/
theorem c1_codec_roundtrip_gzip_fails :
    (∀ v : ByteView, RawCodec.Encode v >>= RawCodec.Decode = .ok v) ∧
    (∀ (crc32 : List Nat → Nat),
      (GzipCodec.Encode ⟨[]⟩ >>= GzipCodec.Decode crc32) =
        .error "unexpected EOF") ∧
    (∀ (crc32 : List Nat → Nat) (v : ByteView),
      (GzipCodec.Encode v >>= GzipCodec.Decode crc32) =
        .error "unexpected EOF") := by
  exact ⟨fun v => rfl, fun crc32 => rfl, fun crc32 v => rfl⟩

/-- C7: `cache.add` computes the expire timestamp from the TTL: when
`ttl = 0` the entry is stored with the zero (absent) timestamp and a
later `get` at any time `t` still returns it (the expiry check
`expire != 0 && expire <= now` can never fire); when `ttl = d > 0` the
stored timestamp is `now + d`.  The byte-budget hypotheses disable
capacity eviction so that the entry's survival isolates the TTL
behaviour. -/
theorem c7_ttl_expire (c : Cache) (key : String) (v : ByteView) (now : Nat)
    (hb : c.cacheBytes = 0) (hl : ∀ l, c.lru = some l → l.maxBytes = 0) :
    (c.ttl = 0 →
      (c.add key v now).storedExpire key = some 0 ∧
      ∀ t, ((c.add key v now).get key t).1 = (v, true)) ∧
    (0 < c.ttl →
      (c.add key v now).storedExpire key = some (now + c.ttl)) := by
  obtain ⟨l, hm, hadd⟩ : ∃ l : Lru, l.maxBytes = 0 ∧
      c.add key v now =
        Cache.mk (some (l.Add key v (if c.ttl ≠ 0 then now + c.ttl else 0)))
          c.cacheBytes c.ttl := by
    cases hcl : c.lru with
    | none =>
      exact ⟨Lru.New c.cacheBytes, by simp [Lru.New, hb],
        by simp [Cache.add, hcl]⟩
    | some l => exact ⟨l, hl l hcl, by simp [Cache.add, hcl]⟩
  constructor
  · intro h0
    have h0' : (if c.ttl ≠ 0 then now + c.ttl else 0) = 0 := by simp [h0]
    rw [h0'] at hadd
    constructor
    · rw [hadd]
      simp only [Cache.storedExpire, lru_find_after_add l hm key v 0]
      rfl
    · intro t
      rw [hadd]
      simp only [Cache.get, Lru.Get, lru_find_after_add l hm key v 0]
      simp
  · intro hpos
    have hne : c.ttl ≠ 0 := Nat.pos_iff_ne_zero.mp hpos
    have he : (if c.ttl ≠ 0 then now + c.ttl else 0) = now + c.ttl := by
      simp [hne]
    rw [he] at hadd
    rw [hadd]
    simp only [Cache.storedExpire, lru_find_after_add l hm key v (now + c.ttl)]
    rfl

/-- Witness for C7 at a concrete cache with `ttl = 0`. -/
theorem c7_ttl_expire_witness :
    (Cache.mk none 0 0).cacheBytes = 0 ∧
    (((Cache.mk none 0 0).add "k" ⟨[1, 2]⟩ 10).storedExpire "k" = some 0 ∧
      ∀ t, (((Cache.mk none 0 0).add "k" ⟨[1, 2]⟩ 10).get "k" t).1 =
        (⟨[1, 2]⟩, true)) :=
  ⟨rfl, (c7_ttl_expire (Cache.mk none 0 0) "k" ⟨[1, 2]⟩ 10 rfl
    (fun l h => by cases h)).1 rfl⟩

/-- C8: on a cache never added to (`c.lru` is still nil), `get` returns
the zero `ByteView` with `ok = false` and leaves the cache unchanged —
in particular it does not construct the LRU; `add` constructs the LRU
(from `lru.New(c.cacheBytes, nil)`) exactly when it is nil, and reuses
the existing one otherwise. -/
theorem c8_lazy_construction (c : Cache) (key k2 : String) (v : ByteView)
    (now t : Nat) :
    (c.lru = none →
      c.get key t = ((⟨[]⟩, false), c) ∧
      (c.add k2 v now).lru =
        some ((Lru.New c.cacheBytes).Add k2 v
          (if c.ttl ≠ 0 then now + c.ttl else 0))) ∧
    (∀ l, c.lru = some l →
      (c.add k2 v now).lru =
        some (l.Add k2 v (if c.ttl ≠ 0 then now + c.ttl else 0))) := by
  constructor
  · intro h
    exact ⟨by simp [Cache.get, h], by simp [Cache.add, h]⟩
  · intro l h
    simp [Cache.add, h]

/-- Witness for C8 at a concrete never-added-to cache. -/
theorem c8_lazy_construction_witness :
    (Cache.mk none 7 0).lru = none ∧
    ((Cache.mk none 7 0).get "k" 3 = ((⟨[]⟩, false), Cache.mk none 7 0) ∧
      ((Cache.mk none 7 0).add "k" ⟨[1]⟩ 5).lru =
        some ((Lru.New 7).Add "k" ⟨[1]⟩ 0)) :=
  ⟨rfl, (c8_lazy_construction (Cache.mk none 7 0) "k" "k" ⟨[1]⟩ 5 3).1 rfl⟩

/-- C3: for a request whose path carries the pool's `BasePath` prefix,
`ServeHTTP` answers 400 when the remainder does not split (via
`SplitN(..., "/", 2)`) into exactly two segments, 404 when the named
group is not registered, 500 when the group lookup or the codec encode
fails, and otherwise 200 with `Content-Type: application/octet-stream`
and the encoded bytes as body. -/
theorem c3_serve_http_statuses (p : HTTPPool)
    (getGroup : String → Option (String → Except String ByteView))
    (path : String) (hpre : goHasPrefix path p.basePath = true) :
    ((splitN2 (goDrop path (goLength p.basePath))).length ≠ 2 →
      p.ServeHTTP getGroup path =
        .response 400 plainCT (strBytes "bad request\n")) ∧
    (∀ groupName key,
      splitN2 (goDrop path (goLength p.basePath)) = [groupName, key] →
      (getGroup groupName = none →
        p.ServeHTTP getGroup path =
          .response 404 plainCT
            (strBytes ("no such group: " ++ groupName ++ "\n"))) ∧
      (∀ g, getGroup groupName = some g →
        (∀ e, g key = .error e →
          p.ServeHTTP getGroup path =
            .response 500 plainCT (strBytes (e ++ "\n"))) ∧
        (∀ view, g key = .ok view →
          (∀ e, p.codec.Encode view = .error e →
            p.ServeHTTP getGroup path =
              .response 500 plainCT (strBytes (e ++ "\n"))) ∧
          (∀ body, p.codec.Encode view = .ok body →
            p.ServeHTTP getGroup path =
              .response 200 "application/octet-stream" body)))) := by
  constructor
  · intro hlen
    simp only [HTTPPool.ServeHTTP, hpre, if_true]
    cases hs : splitN2 (goDrop path (goLength p.basePath)) with
    | nil => rfl
    | cons a rest =>
      cases rest with
      | nil => rfl
      | cons b rest2 =>
        cases rest2 with
        | nil => exact absurd (by simp [hs]) hlen
        | cons c rest3 => rfl
  · intro groupName key hs
    refine ⟨?_, ?_⟩
    · intro hg
      simp [HTTPPool.ServeHTTP, hpre, hs, hg]
    · intro g hg
      refine ⟨?_, ?_⟩
      · intro e he
        simp [HTTPPool.ServeHTTP, hpre, hs, hg, he]
      · intro view hv
        refine ⟨?_, ?_⟩
        · intro e he
          simp [HTTPPool.ServeHTTP, hpre, hs, hg, hv, he]
        · intro body hb
          simp [HTTPPool.ServeHTTP, hpre, hs, hg, hv, hb]

/-- Witness for C3: a default pool serving `/_yocache/g/k` for a
registered group answers 200 with the raw-encoded value. -/
theorem c3_serve_http_statuses_witness :
    (goHasPrefix "/_yocache/g/k" "/_yocache/" = true) ∧
    (NewHTTPPool "h" ⟨"", 0, none, none⟩).ServeHTTP
      (fun n => if n = "g" then some (fun _ => .ok ⟨[7, 9]⟩) else none)
      "/_yocache/g/k" = .response 200 "application/octet-stream" [7, 9] :=
  ⟨rfl,
    ((((c3_serve_http_statuses (NewHTTPPool "h" ⟨"", 0, none, none⟩)
      (fun n => if n = "g" then some (fun _ => .ok ⟨[7, 9]⟩) else none)
      "/_yocache/g/k" rfl).2 "g" "k" rfl).2 _ rfl).2 ⟨[7, 9]⟩ rfl).2 [7, 9] rfl⟩

/-- C9: a request whose path lacks the `BasePath` prefix makes
`ServeHTTP` panic (no HTTP error is written), and under the
precondition that the path has the prefix the panic branch is
unreachable. -/
theorem c9_serve_http_panic (p : HTTPPool)
    (getGroup : String → Option (String → Except String ByteView))
    (path : String) :
    (¬ goHasPrefix path p.basePath = true →
      p.ServeHTTP getGroup path =
        .panicked ("HTTPPool serving unexpected path: " ++ path)) ∧
    (goHasPrefix path p.basePath = true →
      ∀ msg, p.ServeHTTP getGroup path ≠ .panicked msg) := by
  constructor
  · intro hpre
    simp [HTTPPool.ServeHTTP, hpre]
  · intro hpre msg
    simp only [HTTPPool.ServeHTTP, hpre, if_true]
    cases splitN2 (goDrop path (goLength p.basePath)) with
    | nil => simp
    | cons a rest =>
      cases rest with
      | nil => simp
      | cons b rest2 =>
        cases rest2 with
        | nil =>
          cases hga : getGroup a with
          | none => simp [hga]
          | some g =>
            cases hgb : g b with
            | error e => simp [hga, hgb]
            | ok view =>
              cases hge : p.codec.Encode view with
              | error e => simp [hga, hgb, hge]
              | ok body => simp [hga, hgb, hge]
        | cons c rest3 => simp

/-- Witness for C9: the default pool panics on the path `/x`. -/
theorem c9_serve_http_panic_witness :
    ¬ (goHasPrefix "/x" "/_yocache/" = true) ∧
    (NewHTTPPool "h" ⟨"", 0, none, none⟩).ServeHTTP (fun _ => none) "/x" =
      .panicked ("HTTPPool serving unexpected path: " ++ "/x") :=
  ⟨by decide,
    (c9_serve_http_panic (NewHTTPPool "h" ⟨"", 0, none, none⟩)
      (fun _ => none) "/x").1 (by decide)⟩

/-- C4: when `http.Get` yields a response, any non-200 status code makes
`httpGetter.Get` return the error `"server returned: " + res.Status`,
whose message contains the response status; a 200 status passes the
status check, the result being exactly whatever the body decode
yields. -/
theorem c4_client_non_200 (h : HttpGetter)
    (fetch : String → Except String HttpResponse) (group key : String)
    (res : HttpResponse) (hf : fetch (h.url group key) = .ok res) :
    (res.statusCode ≠ 200 →
      h.Get fetch group key = .error ("server returned: " ++ res.status) ∧
      ∃ pre post,
        "server returned: " ++ res.status = pre ++ res.status ++ post) ∧
    (res.statusCode = 200 →
      h.Get fetch group key =
        match h.decoder res.body with
        | .error e => .error ("decoding response body: " ++ e)
        | .ok view => .ok view.ByteSlice) := by
  constructor
  · intro hne
    refine ⟨by simp [HttpGetter.Get, hf, hne], "server returned: ", "", by simp⟩
  · intro h200
    simp [HttpGetter.Get, hf, h200]

/-- Witness for C4: a 404 response surfaces as
`server returned: 404 Not Found`. -/
theorem c4_client_non_200_witness :
    ((404 : Nat) ≠ 200) ∧
    (HttpGetter.Get ⟨"b/", RawCodec.Decode⟩
        (fun _ => .ok ⟨404, "404 Not Found", []⟩) "g" "k" =
      .error ("server returned: " ++ "404 Not Found") ∧
      ∃ pre post,
        "server returned: " ++ "404 Not Found" =
          pre ++ "404 Not Found" ++ post) :=
  ⟨by decide,
    (c4_client_non_200 ⟨"b/", RawCodec.Decode⟩
      (fun _ => .ok ⟨404, "404 Not Found", []⟩) "g" "k"
      ⟨404, "404 Not Found", []⟩ rfl).1 (by decide)⟩

/-- C5: after `Set`, the getter installed for a peer has base URL
`peer + BasePath`, and the URL `httpGetter.Get` requests for
`(group, key)` is `peer + BasePath + QueryEscape(group) + "/" +
QueryEscape(key)` — the percent-encoded `<basePath><group>/<key>`
shape. -/
theorem c5_url_shape (p : HTTPPool) (peersList : List String)
    (peer group key : String) (hmem : peersList.contains peer = true) :
    ∃ g : HttpGetter,
      (p.Set peersList).httpGetters peer = some g ∧
      g.baseURL = peer ++ p.basePath ∧
      g.url group key =
        peer ++ p.basePath ++ queryEscape group ++ "/" ++ queryEscape key := by
  refine ⟨⟨peer ++ p.basePath, p.codec.Decode⟩, ?_, rfl, rfl⟩
  have hmem' : peer ∈ peersList := by simpa using hmem
  simp [HTTPPool.Set, hmem']

/-- Witness for C5: a default pool with two peers; the getter for
`http://b` requests `http://b/_yocache/g%20g/k%2F1` for group `"g g"`
and key `"k/1"`. -/
theorem c5_url_shape_witness :
    (["http://a", "http://b"].contains "http://b" = true) ∧
    ∃ g : HttpGetter,
      ((NewHTTPPool "http://a" ⟨"", 0, none, none⟩).Set
          ["http://a", "http://b"]).httpGetters "http://b" = some g ∧
      g.baseURL = "http://b" ++ "/_yocache/" ∧
      g.url "g g" "k/1" =
        "http://b" ++ "/_yocache/" ++ queryEscape "g g" ++ "/" ++
          queryEscape "k/1" :=
  ⟨by decide,
    c5_url_shape (NewHTTPPool "http://a" ⟨"", 0, none, none⟩)
      ["http://a", "http://b"] "http://b" "g g" "k/1" (by decide)⟩

/-- C6: with the ring installed, `PickPeer` returns the getter-map
entry for the ring-chosen peer together with `ok = true` exactly when
that peer is neither `""` nor the pool's own identifier; when the local
node owns the key, or the ring is empty (so `Get` yields `""`), it
returns `(nil, false)`. -/
theorem c6_pick_peer (p : HTTPPool) (ring : CHMap) (key : String)
    (hr : p.peers = some ring) :
    (ring.Get key ≠ "" ∧ ring.Get key ≠ p.self →
      p.PickPeer key = .picked (p.httpGetters (ring.Get key)) true) ∧
    (ring.Get key = "" ∨ ring.Get key = p.self →
      p.PickPeer key = .picked none false) ∧
    (ring.keys = [] → p.PickPeer key = .picked none false) := by
  have hempty : ring.keys = [] → ring.Get key = "" := by
    intro hk
    simp [CHMap.Get, hk]
  refine ⟨?_, ?_, ?_⟩
  · intro hcond
    simp [HTTPPool.PickPeer, hr, hcond.1, hcond.2]
  · intro hcond
    have : ¬ (ring.Get key ≠ "" ∧ ring.Get key ≠ p.self) := by
      rcases hcond with h | h <;> simp [h]
    simp [HTTPPool.PickPeer, hr, this]
  · intro hk
    have : ¬ (ring.Get key ≠ "" ∧ ring.Get key ≠ p.self) := by
      simp [hempty hk]
    simp [HTTPPool.PickPeer, hr, this]

/-- Witness for C6: a one-peer ring (one replica, length as hash) owned
by `"A"`, which is remote, so `PickPeer` returns its getter and
`true`. -/
theorem c6_pick_peer_witness :
    ((NewHTTPPool "self" ⟨"", 1, some goLength, none⟩).Set ["A"]).peers =
      some ((CHMap.New 1 (some goLength)).Add ["A"]) ∧
    (((CHMap.New 1 (some goLength)).Add ["A"]).Get "k" ≠ "" ∧
      ((CHMap.New 1 (some goLength)).Add ["A"]).Get "k" ≠
        ((NewHTTPPool "self" ⟨"", 1, some goLength, none⟩).Set ["A"]).self) ∧
    ((NewHTTPPool "self" ⟨"", 1, some goLength, none⟩).Set ["A"]).PickPeer
        "k" =
      .picked
        ((((NewHTTPPool "self" ⟨"", 1, some goLength, none⟩).Set
          ["A"]).httpGetters)
          (((CHMap.New 1 (some goLength)).Add ["A"]).Get "k")) true :=
  ⟨rfl, by decide,
    (c6_pick_peer ((NewHTTPPool "self" ⟨"", 1, some goLength, none⟩).Set
      ["A"]) ((CHMap.New 1 (some goLength)).Add ["A"]) "k" rfl).1
      (by decide)⟩

/-- C10: `PickPeer` called before any `Set` dereferences the nil ring
and panics (Go:`p.peers.Get(key)` with `p.peers == nil`); after any
`Set` the ring is non-nil, so `PickPeer` never panics. -/
theorem c10_pick_peer_nil_ring (self : String) (opts : HTTPPoolOptions)
    (p : HTTPPool) (peersList : List String) (key : String) :
    (NewHTTPPool self opts).PickPeer key = .panicked ∧
    (p.Set peersList).PickPeer key ≠ .panicked := by
  constructor
  · rfl
  · simp only [HTTPPool.Set, HTTPPool.PickPeer]
    split <;> simp

/-- Witness for C10: a fresh default pool panics on `PickPeer`; after
`Set(["A"])` it does not. -/
theorem c10_pick_peer_nil_ring_witness :
    (NewHTTPPool "h" ⟨"", 0, none, none⟩).PickPeer "k" = .panicked ∧
    ((NewHTTPPool "h" ⟨"", 0, none, none⟩).Set ["A"]).PickPeer "k" ≠
      .panicked :=
  c10_pick_peer_nil_ring "h" ⟨"", 0, none, none⟩
    (NewHTTPPool "h" ⟨"", 0, none, none⟩) ["A"] "k"
